import Mathlib

/-!
Verification of the OOFPP_Habits habit tracker.

The streak & analytics engine (module `analytics`) is imported by
`src/main.py` but its source is not part of the repository snapshot;
following the specification document, the engine is modelled here from
the spec's own algorithm descriptions (all such definitions carry a
`Modelled from the spec:` doc comment).  The remaining definitions are
shallow embeddings of the Python sources `modules/habit.py`,
`modules/storage_handler.py`, `modules/sqlite_handler.py`,
`modules/habit_manager.py` and `main.py`.
-/

namespace Habits

/-- A calendar timestamp (the engine only inspects the date fields;
hour/minute/second are carried so that several completions can share one
calendar day without being equal). -/
structure Timestamp where
  year : Int
  month : Int
  day : Int
  hour : Int
  minute : Int
  second : Int
deriving DecidableEq

/-- Modelled from the spec: the closed periodicity tag
{Daily, Weekly, Monthly}. -/
inductive Periodicity
  | daily
  | weekly
  | monthly
deriving DecidableEq

/-- Gregorian leap-year rule. -/
def isLeap (y : Int) : Bool :=
  y % 4 == 0 && (y % 100 != 0 || y % 400 == 0)

/-- Days in a Gregorian month. -/
def daysInMonth (y m : Int) : Int :=
  if m = 2 then (if isLeap y then 29 else 28)
  else if m = 4 ∨ m = 6 ∨ m = 9 ∨ m = 11 then 30
  else 31

/-- Days in the months strictly before month `m` of year `y`. -/
def daysBeforeMonth (y m : Int) : Int :=
  (if m = 1 then 0
   else if m = 2 then 31
   else if m = 3 then 59
   else if m = 4 then 90
   else if m = 5 then 120
   else if m = 6 then 151
   else if m = 7 then 181
   else if m = 8 then 212
   else if m = 9 then 243
   else if m = 10 then 273
   else if m = 11 then 304
   else 334)
  + (if 2 < m ∧ isLeap y then 1 else 0)

/-- Ordinal day within the year. -/
def dayOfYear (y m d : Int) : Int :=
  daysBeforeMonth y m + d

/-- Rata-die day number: 0001-01-01 (proleptic Gregorian, a Monday)
is day 1. -/
def rataDie (y m d : Int) : Int :=
  365 * (y - 1) + (y - 1).fdiv 4 - (y - 1).fdiv 100 + (y - 1).fdiv 400
    + dayOfYear y m d

/-- ISO day of week: Monday = 1, ..., Sunday = 7. -/
def isoDow (y m d : Int) : Int :=
  let r := rataDie y m d % 7
  if r = 0 then 7 else r

/-- Number of ISO weeks in ISO week-numbering year `y` (53 when Jan 1
falls on Thursday, or on Wednesday in a leap year; else 52). -/
def weeksInISOYear (y : Int) : Int :=
  let d := isoDow y 1 1
  if d = 4 ∨ (isLeap y ∧ d = 3) then 53 else 52

/-- ISO-8601 week of a date: (week-numbering year, week number);
weeks run Monday-Sunday and week 1 is the week containing Jan 4. -/
def isoWeekOf (y m d : Int) : Int × Int :=
  let w := (dayOfYear y m d - isoDow y m d + 10).fdiv 7
  if w < 1 then (y - 1, weeksInISOYear (y - 1))
  else if weeksInISOYear y < w then (y + 1, 1)
  else (y, w)

/-- Modelled from the spec: a period key — Daily → (year, month, day),
Weekly → (ISO week-numbering year, ISO week), Monthly → (year, month). -/
inductive PeriodKey
  | day (y m d : Int)
  | week (wy w : Int)
  | month (y m : Int)
deriving DecidableEq

/-- Modelled from the spec: `periodKey(periodicity, timestamp)` of the
missing Period Classifier. -/
def periodKey (p : Periodicity) (t : Timestamp) : PeriodKey :=
  match p with
  | .daily => .day t.year t.month t.day
  | .weekly =>
      let yw := isoWeekOf t.year t.month t.day
      .week yw.1 yw.2
  | .monthly => .month t.year t.month

/-- The key exactly one period after `k`: next calendar day, next ISO
week, or next calendar month. -/
def nextKey : PeriodKey → PeriodKey
  | .day y m d =>
      if d < daysInMonth y m then .day y m (d + 1)
      else if m < 12 then .day y (m + 1) 1
      else .day (y + 1) 1 1
  | .week wy w =>
      if w < weeksInISOYear wy then .week wy (w + 1)
      else .week (wy + 1) 1
  | .month y m =>
      if m < 12 then .month y (m + 1)
      else .month (y + 1) 1

/-- Modelled from the spec: `isSuccessor(a, b)` — true iff `b` is
exactly one period after `a`. -/
def isSuccessor (a b : PeriodKey) : Bool :=
  decide (b = nextKey a)

/-- Linear index of a period key in its discrete period sequence. -/
def toIndex : PeriodKey → Int
  | .day y m d => rataDie y m d
  | .week wy w =>
      (rataDie wy 1 4 - (isoDow wy 1 4 - 1) + 7 * (w - 1) - 1).fdiv 7
  | .month y m => 12 * y + m

/-- Modelled from the spec: `distance(a, b)` — number of periods from
`a` to `b` (0 if equal, negative if `b` precedes `a`). -/
def distance (a b : PeriodKey) : Int :=
  toIndex b - toIndex a

/-- Modelled from the spec: `StreakResult` — the immutable pair
(current, longest). -/
structure StreakResult where
  current : Nat
  longest : Nat
deriving DecidableEq

/-- Collapse duplicate keys: each key produced by many completions is
counted once. -/
def dedupKeys : List PeriodKey → List PeriodKey
  | [] => []
  | k :: ks =>
      let r := dedupKeys ks
      if k ∈ r then r else k :: r

/-- Insert a key into a list sorted ascending by period order. -/
def insertSorted (k : PeriodKey) : List PeriodKey → List PeriodKey
  | [] => [k]
  | x :: xs =>
      if toIndex k ≤ toIndex x then k :: x :: xs
      else x :: insertSorted k xs

/-- Sort keys ascending by period order. -/
def sortKeys : List PeriodKey → List PeriodKey
  | [] => []
  | k :: ks => insertSorted k (sortKeys ks)

/-- Modelled from the spec: steps 1-2 of the Streak Calculator — the
distinct set of period keys of the completions, sorted ascending. -/
def sortedKeys (p : Periodicity) (cs : List Timestamp) : List PeriodKey :=
  sortKeys (dedupKeys (cs.map (periodKey p)))

/-- Scan a key list once, tracking the current run of
successor-consecutive keys and the best run seen so far. -/
def runGo : PeriodKey → Nat → Nat → List PeriodKey → Nat
  | _, cur, best, [] => Nat.max best cur
  | prev, cur, best, k :: ks =>
      if isSuccessor prev k then runGo k (cur + 1) best ks
      else runGo k 1 (Nat.max best cur) ks

/-- Modelled from the spec: step 3 — the size of the largest maximal
chain of successor-consecutive keys in the sorted key list. -/
def longestRun : List PeriodKey → Nat
  | [] => 0
  | k :: ks => runGo k 1 0 ks

/-- Length of the run of successor-consecutive keys ending at the last
key of the list. -/
def trailGo : PeriodKey → Nat → List PeriodKey → Nat
  | _, cur, [] => cur
  | prev, cur, k :: ks =>
      if isSuccessor prev k then trailGo k (cur + 1) ks
      else trailGo k 1 ks

/-- Modelled from the spec: the run ending at `lastKey`, "computed the
same way as step 3 but restricted to the trailing run". -/
def trailingRun : List PeriodKey → Nat
  | [] => 0
  | k :: ks => trailGo k 1 ks

/-- Modelled from the spec: `computeStreak` of the missing Streak
Calculator.  Empty completions give {0, 0}; otherwise longest is the
largest run, and current follows the grace rule on
`gap = distance(lastKey, nowKey)`: alive (the trailing run) when gap is
0 or 1, broken (0) otherwise. -/
def computeStreak (p : Periodicity) (cs : List Timestamp)
    (now : Timestamp) : StreakResult :=
  match (sortedKeys p cs).getLast? with
  | none => ⟨0, 0⟩
  | some lastKey =>
      ⟨if distance lastKey (periodKey p now) = 0 ∨
          distance lastKey (periodKey p now) = 1
        then trailingRun (sortedKeys p cs) else 0,
       longestRun (sortedKeys p cs)⟩

/-- Whitespace test for the Python `str.strip()` model. -/
def isSpaceChar (c : Char) : Bool :=
  c = ' ' || c = '\t' || c = '\n' || c = '\r'

/-- Python's `str.strip()`: drop leading and trailing whitespace. -/
def pyStrip (s : String) : String :=
  ⟨((s.data.dropWhile isSpaceChar).reverse.dropWhile isSpaceChar).reverse⟩

/-- Python's `str.lower()`: lower-case every character. -/
def pyLower (s : String) : String :=
  ⟨s.data.map Char.toLower⟩

/-- A habit record as defined in `modules/habit.py` (and consumed
read-only by the engine): display name, periodicity tag (still a raw
string at this level), creation timestamp, completion list. -/
structure Habit where
  name : String
  periodicity : String
  created_at : Timestamp
  completions : List Timestamp
deriving DecidableEq

/-- `Habit.complete` from `modules/habit.py`: appends the current
instant (`datetime.now()`, passed here explicitly as `now`) to the
completion list. -/
def Habit.complete (h : Habit) (now : Timestamp) : Habit :=
  { h with completions := h.completions ++ [now] }

/-- Modelled from the spec: boundary classification of the raw
periodicity string into the closed tag; strings outside
{daily, weekly, monthly} fail (UnknownPeriodicity). -/
def parsePeriodicity (s : String) : Option Periodicity :=
  if s = "daily" then some .daily
  else if s = "weekly" then some .weekly
  else if s = "monthly" then some .monthly
  else none

/-- Modelled from the spec: `byPeriodicity` of the missing Aggregate
Analyzer — the pure order-preserving filter on the periodicity tag. -/
def byPeriodicity (habits : List Habit) (tag : String) : List Habit :=
  habits.filter (fun h => decide (h.periodicity = tag))

/-- Modelled from the spec: the (name, longest) score of every habit
that classifies; habits failing classification are skipped. -/
def scoredHabits (habits : List Habit) (now : Timestamp) :
    List (String × Nat) :=
  habits.filterMap (fun h =>
    (parsePeriodicity h.periodicity).map
      (fun p => (h.name, (computeStreak p h.completions now).longest)))

/-- Left scan keeping the best (name, longest) pair; a later pair
replaces the running best only when strictly larger, so ties go to the
earliest position. -/
def pickGo (best : String × Nat) : List (String × Nat) → String × Nat
  | [] => best
  | x :: xs => if best.2 < x.2 then pickGo x xs else pickGo best xs

/-- Modelled from the spec: `overallLongest` of the missing Aggregate
Analyzer — maximum `longest` over the valid habits, ties broken by
earliest input position; `none` when no habit scores. -/
def overallLongest (habits : List Habit) (now : Timestamp) :
    Option (String × Nat) :=
  match scoredHabits habits now with
  | [] => none
  | x :: xs => some (pickGo x xs)

/-- First habit whose name matches `name` case-insensitively
(both sides lowered with `pyLower`, then compared exactly). -/
def findByName (name : String) : List Habit → Option Habit
  | [] => none
  | h :: hs =>
      if pyLower h.name = pyLower name then some h
      else findByName name hs

/-- Single-habit streak computation at the habit level: unknown
periodicity tags surface as an error, per the spec's error taxonomy. -/
def streakOfHabit (h : Habit) (now : Timestamp) :
    Except String (Option StreakResult) :=
  match parsePeriodicity h.periodicity with
  | none => .error h.periodicity
  | some p => .ok (some (computeStreak p h.completions now))

/-- Modelled from the spec: `longestForName` of the missing Aggregate
Analyzer — case-insensitive first-match name lookup; a missing name is
the normal negative result `.ok none`, not an error. -/
def longestForName (habits : List Habit) (name : String)
    (now : Timestamp) : Except String (Option StreakResult) :=
  match findByName name habits with
  | none => .ok none
  | some h => streakOfHabit h now

/-- Modelled from the spec: `computeStreak` as invoked in an execution
environment whose system clock reads `sysClock`; the engine never reads
the clock, only the explicit `now` argument. -/
def computeStreakAt (_sysClock : Timestamp) (p : Periodicity)
    (cs : List Timestamp) (now : Timestamp) : StreakResult :=
  computeStreak p cs now

/-- Modelled from the spec: `overallLongest` in an environment with
system clock `sysClock`, which it never reads. -/
def overallLongestAt (_sysClock : Timestamp) (habits : List Habit)
    (now : Timestamp) : Option (String × Nat) :=
  overallLongest habits now

/-- Modelled from the spec: `longestForName` in an environment with
system clock `sysClock`, which it never reads. -/
def longestForNameAt (_sysClock : Timestamp) (habits : List Habit)
    (name : String) (now : Timestamp) :
    Except String (Option StreakResult) :=
  longestForName habits name now

/-- Abstract methods declared by `StorageHandler`
(`modules/storage_handler.py`, lines 4-11): `save` and `load`. -/
def storageHandlerAbstractMethods : List String :=
  ["save", "load"]

/-- Methods defined on `SQLiteHandler` (`modules/sqlite_handler.py`);
none of them is named `save` or `load`. -/
def sqliteHandlerMethods : List String :=
  ["__init__", "_ensure_pragmas", "ensure_tables", "save_habit",
   "load_habits", "get_habit_by_id", "update_habit", "delete_habit",
   "add_completion", "get_completions", "get_all_completions", "close",
   "__enter__", "__exit__"]

/-- Abstract methods of the base class that the subclass leaves
unimplemented. -/
def unimplementedAbstract : List String :=
  storageHandlerAbstractMethods.filter
    (fun m => decide (¬ m ∈ sqliteHandlerMethods))

/-- Outcome of evaluating `SQLiteHandler(db_path)`. -/
inductive InitResult
  | ok (db_path : String)
  | typeError (missing : List String)
deriving DecidableEq

/-- Python ABC semantics for `SQLiteHandler(db_path)`: instantiating a
class whose set of unimplemented abstract methods is non-empty raises
`TypeError` before `__init__` runs. -/
def constructSQLiteHandler (db_path : String) : InitResult :=
  if unimplementedAbstract.isEmpty then .ok db_path
  else .typeError unimplementedAbstract

/-- Outcome of starting `main_loop` (`src/main.py`, lines 196-198). -/
inductive StartupResult
  | crash (missing : List String)
  | running (db_path : String)
deriving DecidableEq

/-- `main_loop(db_path)` startup from `src/main.py`: it constructs
`SQLiteHandler(db_path)` first; a `TypeError` there propagates and no
command ever runs. -/
def main_loop (db_path : String) : StartupResult :=
  match constructSQLiteHandler db_path with
  | .typeError m => .crash m
  | .ok s => .running s

/-- Outcome of evaluating `HabitManager(db_path)`
(`modules/habit_manager.py`, line 8: `self.db = SQLiteHandler(db_path)`). -/
inductive ManagerInit
  | ok (db_path : String)
  | typeError (missing : List String)
deriving DecidableEq

/-- `HabitManager.__init__` constructs a `SQLiteHandler`, so the
abstract-class `TypeError` propagates out of the manager constructor. -/
def constructHabitManager (db_path : String) : ManagerInit :=
  match constructSQLiteHandler db_path with
  | .typeError m => .typeError m
  | .ok s => .ok s

/-- The valid periodicity strings of `src/main.py`, line 62. -/
def VALID_PERIODICITIES : List String :=
  ["daily", "weekly", "monthly"]

/-- Outcome of `cmd_create` (`src/main.py`, lines 97-111). -/
inductive CreateOutcome
  | emptyName
  | invalidPeriodicity (p : String)
  | created (name p : String)
deriving DecidableEq

/-- `cmd_create` from `src/main.py`: strips the name, aborts when
empty; strips and lowercases the periodicity answer and rejects it
before calling `manager.create_habit` unless it is one of
daily/weekly/monthly. -/
def cmd_create (nameInput periodicityInput : String) : CreateOutcome :=
  let name := pyStrip nameInput
  if name = "" then .emptyName
  else
    let p := pyLower (pyStrip periodicityInput)
    if p ∈ VALID_PERIODICITIES then .created name p
    else .invalidPeriodicity p

/-- The habit stored by one `cmd_create` interaction: `some (name,
periodicity)` exactly when the `created` branch ran, `none` on every
rejected input. -/
def cmd_create_stored (nameInput periodicityInput : String) :
    Option (String × String) :=
  match cmd_create nameInput periodicityInput with
  | .created n p => some (n, p)
  | _ => none

/-! ## Helper lemmas -/

theorem dedupKeys_ne_nil {l : List PeriodKey} (h : l ≠ []) :
    dedupKeys l ≠ [] := by
  cases l with
  | nil => exact absurd rfl h
  | cons k ks =>
      simp only [dedupKeys]
      split
      · exact List.ne_nil_of_mem (by assumption)
      · exact List.cons_ne_nil _ _

theorem insertSorted_ne_nil (k : PeriodKey) (l : List PeriodKey) :
    insertSorted k l ≠ [] := by
  cases l with
  | nil => exact List.cons_ne_nil _ _
  | cons x xs =>
      simp only [insertSorted]
      split
      · exact List.cons_ne_nil _ _
      · exact List.cons_ne_nil _ _

theorem sortKeys_ne_nil {l : List PeriodKey} (h : l ≠ []) :
    sortKeys l ≠ [] := by
  cases l with
  | nil => exact absurd rfl h
  | cons k ks => exact insertSorted_ne_nil k (sortKeys ks)

theorem sortedKeys_ne_nil (p : Periodicity) {cs : List Timestamp}
    (h : cs ≠ []) : sortedKeys p cs ≠ [] :=
  sortKeys_ne_nil (dedupKeys_ne_nil (by simpa using h))

/-! ## Claim theorems -/

/-- C9: for every period key `k` (of any periodicity),
`isSuccessor(k, k)` is false — a key is never its own successor. -/
theorem isSuccessor_irrefl (k : PeriodKey) : isSuccessor k k = false := by
  have : k ≠ nextKey k := by
    cases k with
    | day y m d =>
        simp only [nextKey]
        split
        · intro h
          injection h with _ _ h3
          omega
        · split
          · intro h
            injection h with _ h2 _
            omega
          · intro h
            injection h with h1 _ _
            omega
    | week wy w =>
        simp only [nextKey]
        split
        · intro h
          injection h with _ h2
          omega
        · intro h
          injection h with h1 _
          omega
    | month y m =>
        simp only [nextKey]
        split
        · intro h
          injection h with _ h2
          omega
        · intro h
          injection h with h1 _
          omega
  simpa [isSuccessor] using this

/-- C6: a habit with an empty completion multiset has streak
{current: 0, longest: 0} at every instant, for every periodicity. -/
theorem computeStreak_empty (p : Periodicity) (now : Timestamp) :
    computeStreak p [] now = ⟨0, 0⟩ := rfl

/-- C10: `Habit.complete` appends exactly one new timestamp, keeps all
earlier completions in order (the old list is a prefix), and leaves
name, periodicity and creation time unchanged. -/
theorem Habit_complete_frame (h : Habit) (now : Timestamp) :
    (h.complete now).completions = h.completions ++ [now] ∧
    (h.complete now).completions.length = h.completions.length + 1 ∧
    (h.complete now).name = h.name ∧
    (h.complete now).periodicity = h.periodicity ∧
    (h.complete now).created_at = h.created_at := by
  refine ⟨rfl, ?_, rfl, rfl, rfl⟩
  simp [Habit.complete]

/-- C4: for every db_path, `SQLiteHandler(db_path)` raises TypeError —
the subclass never overrides the abstract `save` and `load` — so
`HabitManager` construction and `main_loop` startup fail before any
command can run. -/
theorem sqliteHandler_abstract_crash (db_path : String) :
    constructSQLiteHandler db_path = .typeError ["save", "load"] ∧
    constructHabitManager db_path = .typeError ["save", "load"] ∧
    main_loop db_path = .crash ["save", "load"] :=
  ⟨rfl, rfl, rfl⟩

/-- C3: the analytics entry points read only their explicit `now`
argument, never the ambient system clock, so any two environments whose
clocks differ produce identical results for identical arguments. -/
theorem analytics_clock_independent :
    ∀ c₁ c₂ : Timestamp, ∀ p : Periodicity, ∀ cs : List Timestamp,
      ∀ now : Timestamp, ∀ habits : List Habit, ∀ name : String,
      computeStreakAt c₁ p cs now = computeStreakAt c₂ p cs now ∧
      overallLongestAt c₁ habits now = overallLongestAt c₂ habits now ∧
      longestForNameAt c₁ habits name now =
        longestForNameAt c₂ habits name now :=
  fun _ _ _ _ _ _ _ => ⟨rfl, rfl, rfl⟩

/-- C8: `byPeriodicity` returns a sublist of the input (order
preserved, never re-sorted) containing exactly the habits whose
periodicity equals the tag. -/
theorem byPeriodicity_spec (habits : List Habit) (tag : String) :
    (byPeriodicity habits tag).Sublist habits ∧
    (∀ h : Habit,
      h ∈ byPeriodicity habits tag ↔ h ∈ habits ∧ h.periodicity = tag) := by
  constructor
  · exact List.filter_sublist habits
  · intro h
    simp [byPeriodicity, List.mem_filter]

theorem getLast?_eq_some_of_ne_nil {l : List PeriodKey} (h : l ≠ []) :
    ∃ a, l.getLast? = some a := by
  obtain ⟨a, ha⟩ := Option.isSome_iff_exists.mp
    (by rw [List.getLast?_isSome]; exact h)
  exact ⟨a, ha⟩

/-- C1: grace rule of the current streak.  For every habit with at
least one completion and every instant `now`, with `gap` the distance
from the latest period key to the key of `now`: current is 0 whenever
`gap > 1`, and current is the trailing run of successor-consecutive
keys ending at the latest key whenever `gap` is 0 or 1; in particular a
monthly habit with a single completion two months before `now` yields
{current: 0, longest: 1}. -/
theorem computeStreak_grace (p : Periodicity) (cs : List Timestamp)
    (now : Timestamp) (hcs : cs ≠ []) :
    ∃ lastKey, (sortedKeys p cs).getLast? = some lastKey ∧
      (1 < distance lastKey (periodKey p now) →
        (computeStreak p cs now).current = 0) ∧
      ((distance lastKey (periodKey p now) = 0 ∨
          distance lastKey (periodKey p now) = 1) →
        (computeStreak p cs now).current = trailingRun (sortedKeys p cs)) ∧
      computeStreak .monthly [⟨2025, 8, 15, 10, 0, 0⟩]
        ⟨2025, 10, 12, 9, 30, 0⟩ = ⟨0, 1⟩ := by
  obtain ⟨lastKey, hlast⟩ :=
    getLast?_eq_some_of_ne_nil (sortedKeys_ne_nil p hcs)
  refine ⟨lastKey, hlast, ?_, ?_, by decide⟩
  · intro hgap
    unfold computeStreak
    rw [hlast]
    simp only
    rw [if_neg (by omega)]
  · intro hgap
    unfold computeStreak
    rw [hlast]
    simp only
    rw [if_pos hgap]

/-- Witness for C1 at a concrete input: the monthly habit completed two
months before `now`. -/
theorem computeStreak_grace_witness :
    computeStreak .monthly [⟨2025, 8, 15, 10, 0, 0⟩]
      ⟨2025, 10, 12, 9, 30, 0⟩ = ⟨0, 1⟩ :=
  match computeStreak_grace .monthly [⟨2025, 8, 15, 10, 0, 0⟩]
      ⟨2025, 10, 12, 9, 30, 0⟩ (by decide) with
  | ⟨_, _, _, _, hconc⟩ => hconc

/-- C7: periodicity strings outside {daily, weekly, monthly} are
rejected by `cmd_create` before the manager is called: nothing is
stored and (when the name was accepted) the invalid-periodicity error
is reported; consequently every stored habit carries a valid tag. -/
theorem cmd_create_boundary (nameInput periodicityInput : String) :
    (¬ pyLower (pyStrip periodicityInput) ∈ VALID_PERIODICITIES →
      cmd_create_stored nameInput periodicityInput = none ∧
      (pyStrip nameInput ≠ "" →
        cmd_create nameInput periodicityInput =
          .invalidPeriodicity (pyLower (pyStrip periodicityInput)))) ∧
    (∀ nm pp,
      cmd_create_stored nameInput periodicityInput = some (nm, pp) →
      pp ∈ VALID_PERIODICITIES) := by
  constructor
  · intro hp
    by_cases hn : pyStrip nameInput = ""
    · exact ⟨by simp [cmd_create_stored, cmd_create, hn],
        fun hn2 => absurd hn hn2⟩
    · exact ⟨by simp [cmd_create_stored, cmd_create, hn, hp],
        fun _ => by simp [cmd_create, hn, hp]⟩
  · intro nm pp hsome
    by_cases hn : pyStrip nameInput = ""
    · simp [cmd_create_stored, cmd_create, hn] at hsome
    · by_cases hp : pyLower (pyStrip periodicityInput) ∈ VALID_PERIODICITIES
      · simp only [cmd_create_stored, cmd_create, if_neg hn,
          if_pos hp] at hsome
        obtain ⟨-, h2⟩ := Prod.mk.injEq .. ▸ Option.some.inj hsome
        rw [← h2]
        exact hp
      · simp [cmd_create_stored, cmd_create, hn, hp] at hsome

/-- Witness for C7: the invalid periodicity answer "yearly" stores
nothing. -/
theorem cmd_create_boundary_witness :
    ¬ (pyLower (pyStrip "yearly") ∈ VALID_PERIODICITIES) ∧
    cmd_create_stored "Read" "yearly" = none :=
  ⟨by decide, ((cmd_create_boundary "Read" "yearly").1 (by decide)).1⟩

theorem findByName_eq_none {habits : List Habit} {name : String}
    (h : ∀ hb ∈ habits, pyLower hb.name ≠ pyLower name) :
    findByName name habits = none := by
  induction habits with
  | nil => rfl
  | cons x xs ih =>
      simp only [findByName]
      rw [if_neg (h x (List.mem_cons_self x xs))]
      exact ih (fun hb hm => h hb (List.mem_cons_of_mem x hm))

theorem findByName_eq_first {habits : List Habit} {name : String}
    {i : Nat} (hi : i < habits.length)
    (hmatch : pyLower (habits.get ⟨i, hi⟩).name = pyLower name)
    (hbefore : ∀ j, (hj : j < habits.length) → j < i →
      pyLower (habits.get ⟨j, hj⟩).name ≠ pyLower name) :
    findByName name habits = some (habits.get ⟨i, hi⟩) := by
  induction habits generalizing i with
  | nil => exact absurd hi (by simp)
  | cons x xs ih =>
      cases i with
      | zero =>
          simp only [findByName]
          rw [if_pos (show pyLower x.name = pyLower name from hmatch)]
          rfl
      | succ j =>
          have hx : pyLower x.name ≠ pyLower name :=
            hbefore 0 (by omega) (by omega)
          simp only [findByName]
          rw [if_neg hx]
          exact ih (by simpa using Nat.lt_of_succ_lt_succ hi) hmatch
            (fun j' hj' hlt => hbefore (j' + 1) (by omega) (by omega))

/-- C5: `longestForName` matches habit names case-insensitively and
exactly; with no match it returns the normal negative result
`.ok none` (no exception); with matches, the first habit in input
order wins and the result is its single-habit streak computation. -/
theorem longestForName_spec (habits : List Habit) (name : String)
    (now : Timestamp) :
    ((∀ hb ∈ habits, pyLower hb.name ≠ pyLower name) →
      longestForName habits name now = .ok none) ∧
    (∀ i, (hi : i < habits.length) →
      pyLower (habits.get ⟨i, hi⟩).name = pyLower name →
      (∀ j, (hj : j < habits.length) → j < i →
        pyLower (habits.get ⟨j, hj⟩).name ≠ pyLower name) →
      longestForName habits name now =
        streakOfHabit (habits.get ⟨i, hi⟩) now) := by
  constructor
  · intro h
    simp [longestForName, findByName_eq_none h]
  · intro i hi hm hb
    simp [longestForName, findByName_eq_first hi hm hb]

/-- Witness for C5 at concrete inputs: a miss returns `.ok none`, and
with a duplicate name the first habit in input order is used. -/
theorem longestForName_spec_witness :
    longestForName [⟨"Workout", "daily", ⟨2025, 1, 1, 0, 0, 0⟩, []⟩]
      "Drink Water" ⟨2025, 1, 2, 0, 0, 0⟩ = .ok none ∧
    longestForName
      [⟨"Reading", "weekly", ⟨2025, 1, 1, 0, 0, 0⟩, []⟩,
       ⟨"WORKOUT", "daily", ⟨2025, 1, 1, 0, 0, 0⟩, []⟩,
       ⟨"workout", "monthly", ⟨2025, 1, 1, 0, 0, 0⟩, []⟩]
      "Workout" ⟨2025, 1, 2, 0, 0, 0⟩ =
      streakOfHabit ⟨"WORKOUT", "daily", ⟨2025, 1, 1, 0, 0, 0⟩, []⟩
        ⟨2025, 1, 2, 0, 0, 0⟩ :=
  ⟨(longestForName_spec [⟨"Workout", "daily", ⟨2025, 1, 1, 0, 0, 0⟩, []⟩]
      "Drink Water" ⟨2025, 1, 2, 0, 0, 0⟩).1 (by decide),
   (longestForName_spec
      [⟨"Reading", "weekly", ⟨2025, 1, 1, 0, 0, 0⟩, []⟩,
       ⟨"WORKOUT", "daily", ⟨2025, 1, 1, 0, 0, 0⟩, []⟩,
       ⟨"workout", "monthly", ⟨2025, 1, 1, 0, 0, 0⟩, []⟩]
      "Workout" ⟨2025, 1, 2, 0, 0, 0⟩).2 1 (by decide) (by decide)
      (by decide)⟩

theorem pickGo_first_max (x : String × Nat) (xs : List (String × Nat)) :
    ∃ i, ∃ hi : i < (x :: xs).length,
      pickGo x xs = (x :: xs).get ⟨i, hi⟩ ∧
      (∀ y ∈ x :: xs, y.2 ≤ ((x :: xs).get ⟨i, hi⟩).2) ∧
      (∀ j, (hj : j < (x :: xs).length) → j < i →
        ((x :: xs).get ⟨j, hj⟩).2 < ((x :: xs).get ⟨i, hi⟩).2) := by
  induction xs generalizing x with
  | nil =>
      refine ⟨0, by simp, rfl, ?_, ?_⟩
      · intro y hy
        rw [List.mem_singleton.mp hy]
        exact le_rfl
      · intro j hj hlt
        omega
  | cons y ys ih =>
      by_cases hx : x.2 < y.2
      · obtain ⟨i, hi, heq, hall, hstrict⟩ := ih y
        refine ⟨i + 1, by simpa using hi, ?_, ?_, ?_⟩
        · simpa [pickGo, hx] using heq
        · intro z hz
          rcases List.mem_cons.mp hz with hz | hz
          · rw [hz]
            have hy2 : y.2 ≤ ((y :: ys).get ⟨i, hi⟩).2 :=
              hall y (List.mem_cons_self y ys)
            exact le_of_lt (lt_of_lt_of_le hx hy2)
          · exact hall z hz
        · intro j hj hlt
          cases j with
          | zero =>
              have hy2 : y.2 ≤ ((y :: ys).get ⟨i, hi⟩).2 :=
                hall y (List.mem_cons_self y ys)
              exact lt_of_lt_of_le hx hy2
          | succ j' =>
              exact hstrict j' (by simpa using hj) (by omega)
      · obtain ⟨i, hi, heq, hall, hstrict⟩ := ih x
        cases i with
        | zero =>
            refine ⟨0, by simp, ?_, ?_, ?_⟩
            · simpa [pickGo, hx] using heq
            · intro z hz
              rcases List.mem_cons.mp hz with hz | hz
              · rw [hz]
                exact le_rfl
              · rcases List.mem_cons.mp hz with hz | hz
                · rw [hz]
                  exact le_of_not_lt hx
                · exact hall z (List.mem_cons_of_mem x hz)
            · intro j hj hlt
              omega
        | succ i' =>
            refine ⟨i' + 2, by simpa using hi, ?_, ?_, ?_⟩
            · simpa [pickGo, hx] using heq
            · intro z hz
              rcases List.mem_cons.mp hz with hz | hz
              · rw [hz]
                exact hall x (List.mem_cons_self x ys)
              · rcases List.mem_cons.mp hz with hz | hz
                · rw [hz]
                  have hxlt : x.2 < ((x :: ys).get ⟨i' + 1, hi⟩).2 :=
                    hstrict 0 (by simp) (by omega)
                  exact le_of_lt (lt_of_le_of_lt (le_of_not_lt hx) hxlt)
                · exact hall z (List.mem_cons_of_mem x hz)
            · intro j hj hlt
              have hxlt : x.2 < ((x :: ys).get ⟨i' + 1, hi⟩).2 :=
                hstrict 0 (by simp) (by omega)
              cases j with
              | zero => exact hxlt
              | succ j' =>
                  cases j' with
                  | zero => exact lt_of_le_of_lt (le_of_not_lt hx) hxlt
                  | succ j'' =>
                      exact hstrict (j'' + 1) (by simpa using hj) (by omega)

theorem scoredHabits_ne_nil {habits : List Habit} (now : Timestamp)
    (hne : habits ≠ [])
    (hval : ∀ h ∈ habits, (parsePeriodicity h.periodicity).isSome) :
    scoredHabits habits now ≠ [] := by
  cases habits with
  | nil => exact absurd rfl hne
  | cons x xs =>
      obtain ⟨p, hp⟩ := Option.isSome_iff_exists.mp
        (hval x (List.mem_cons_self x xs))
      simp [scoredHabits, hp]

/-- C2: on a non-empty list of habits that all classify,
`overallLongest` returns the (name, longest) pair of a scored habit
whose longest streak is maximal, with every strictly earlier habit
scoring strictly less (ties broken by earliest input position); when no
habit scores (empty input or all habits fail classification) it
returns `none` instead of raising. -/
theorem overallLongest_spec (habits : List Habit) (now : Timestamp) :
    (scoredHabits habits now = [] → overallLongest habits now = none) ∧
    (habits ≠ [] →
      (∀ h ∈ habits, (parsePeriodicity h.periodicity).isSome) →
      ∃ i, ∃ hi : i < (scoredHabits habits now).length,
        overallLongest habits now =
          some ((scoredHabits habits now).get ⟨i, hi⟩) ∧
        (∀ x ∈ scoredHabits habits now,
          x.2 ≤ ((scoredHabits habits now).get ⟨i, hi⟩).2) ∧
        (∀ j, (hj : j < (scoredHabits habits now).length) → j < i →
          ((scoredHabits habits now).get ⟨j, hj⟩).2 <
            ((scoredHabits habits now).get ⟨i, hi⟩).2)) := by
  constructor
  · intro h
    simp [overallLongest, h]
  · intro hne hval
    have hsne := scoredHabits_ne_nil now hne hval
    cases hs : scoredHabits habits now with
    | nil => exact absurd hs hsne
    | cons x xs =>
        have hov : overallLongest habits now = some (pickGo x xs) := by
          simp [overallLongest, hs]
        rw [hov]
        obtain ⟨i, hi, heq, hall, hstrict⟩ := pickGo_first_max x xs
        exact ⟨i, hi, by rw [heq], hall, hstrict⟩

/-- Witness for C2: two habits, the later one with the strictly longer
streak, at a concrete instant. -/
theorem overallLongest_spec_witness :
    ∃ i, ∃ hi : i <
        (scoredHabits
          [⟨"Water", "daily", ⟨2025, 1, 1, 0, 0, 0⟩, []⟩,
           ⟨"Gym", "weekly", ⟨2025, 1, 1, 0, 0, 0⟩,
             [⟨2025, 1, 6, 9, 0, 0⟩]⟩]
          ⟨2025, 1, 7, 0, 0, 0⟩).length,
      overallLongest
          [⟨"Water", "daily", ⟨2025, 1, 1, 0, 0, 0⟩, []⟩,
           ⟨"Gym", "weekly", ⟨2025, 1, 1, 0, 0, 0⟩,
             [⟨2025, 1, 6, 9, 0, 0⟩]⟩]
          ⟨2025, 1, 7, 0, 0, 0⟩ =
        some ((scoredHabits
          [⟨"Water", "daily", ⟨2025, 1, 1, 0, 0, 0⟩, []⟩,
           ⟨"Gym", "weekly", ⟨2025, 1, 1, 0, 0, 0⟩,
             [⟨2025, 1, 6, 9, 0, 0⟩]⟩]
          ⟨2025, 1, 7, 0, 0, 0⟩).get ⟨i, hi⟩) ∧
      (∀ x ∈ scoredHabits
          [⟨"Water", "daily", ⟨2025, 1, 1, 0, 0, 0⟩, []⟩,
           ⟨"Gym", "weekly", ⟨2025, 1, 1, 0, 0, 0⟩,
             [⟨2025, 1, 6, 9, 0, 0⟩]⟩]
          ⟨2025, 1, 7, 0, 0, 0⟩,
        x.2 ≤ ((scoredHabits
          [⟨"Water", "daily", ⟨2025, 1, 1, 0, 0, 0⟩, []⟩,
           ⟨"Gym", "weekly", ⟨2025, 1, 1, 0, 0, 0⟩,
             [⟨2025, 1, 6, 9, 0, 0⟩]⟩]
          ⟨2025, 1, 7, 0, 0, 0⟩).get ⟨i, hi⟩).2) ∧
      (∀ j, (hj : j <
          (scoredHabits
            [⟨"Water", "daily", ⟨2025, 1, 1, 0, 0, 0⟩, []⟩,
             ⟨"Gym", "weekly", ⟨2025, 1, 1, 0, 0, 0⟩,
               [⟨2025, 1, 6, 9, 0, 0⟩]⟩]
            ⟨2025, 1, 7, 0, 0, 0⟩).length) → j < i →
        ((scoredHabits
            [⟨"Water", "daily", ⟨2025, 1, 1, 0, 0, 0⟩, []⟩,
             ⟨"Gym", "weekly", ⟨2025, 1, 1, 0, 0, 0⟩,
               [⟨2025, 1, 6, 9, 0, 0⟩]⟩]
            ⟨2025, 1, 7, 0, 0, 0⟩).get ⟨j, hj⟩).2 <
          ((scoredHabits
            [⟨"Water", "daily", ⟨2025, 1, 1, 0, 0, 0⟩, []⟩,
             ⟨"Gym", "weekly", ⟨2025, 1, 1, 0, 0, 0⟩,
               [⟨2025, 1, 6, 9, 0, 0⟩]⟩]
            ⟨2025, 1, 7, 0, 0, 0⟩).get ⟨i, hi⟩).2) :=
  (overallLongest_spec
      [⟨"Water", "daily", ⟨2025, 1, 1, 0, 0, 0⟩, []⟩,
       ⟨"Gym", "weekly", ⟨2025, 1, 1, 0, 0, 0⟩,
         [⟨2025, 1, 6, 9, 0, 0⟩]⟩]
      ⟨2025, 1, 7, 0, 0, 0⟩).2 (by decide) (by decide)

end Habits
